import Mathlib

/-!
# Verification of the repo-backup fetch pipeline

Shallow embedding of the Go sources of `repo-backup` (config validation,
the paginated fetch loop `getPaginated`, the fan-in `merge`, and the
GitHub/GitLab provider adapters), together with theorems checking the
natural-language specification against it.

Conventions of the embedding:
* Go `error` results become `Option`/`Except` values (`none` = nil error).
* Go runtime panics are modelled explicitly with the `GoPanic` type where a
  claim depends on whether a panic can happen.
* Channels/goroutines are modelled by explicit schedules: the paginator
  goroutine is a deterministic loop once the context observations are fixed
  (`Sched`), and the fan-in merge is modelled by a record-level interleaving
  schedule.
* Machine `int` values that the code compares (`page`, `LastPage`) are
  modelled as `Nat`/`Int`; no arithmetic in the sources can overflow in the
  modelled runs.
-/

namespace RepoBackup

/-- `Repo` from provider.go: the normalized repository record. -/
structure Repo where
  Provider : String
  Name : String
  URL : String
deriving DecidableEq, Repr

/-- The provider-neutral `response` struct from the gitlab file:
`NextPage`, `LastPage` pagination metadata and an optional `getRate`
accessor (`nil` function modelled as `none`). `ρ` is the abstract
`interface\x7b\x7d` payload type of the rate diagnostic. -/
structure response (ρ : Type) where
  NextPage : Int
  LastPage : Int
  getRate : Option (Unit → ρ)

/-- `response.GetRate`: returns `r.getRate()` when the accessor is non-nil,
and nil (`none`) otherwise — the guard in the source makes the call safe. -/
def response.GetRate {ρ : Type} (r : response ρ) : Option ρ :=
  match r.getRate with
  | some f => some (f ())
  | none => none

/-- The fields of `gitlab.Response` that `gitlabResponse` reads. -/
structure GitlabAPIResponse where
  NextPage : Int
  TotalPages : Int
deriving DecidableEq, Repr

/-- `gitlabResponse` from the gitlab file: builds a `response` from a
GitLab API response, leaving the `getRate` accessor nil. -/
def gitlabResponse {ρ : Type} (r : GitlabAPIResponse) : response ρ :=
  { NextPage := r.NextPage, LastPage := r.TotalPages, getRate := none }

/-! ## Configuration model (config.go) -/

/-- The sentinel errors of config.go. -/
inductive ConfigError where
  | ErrMissingRoot
  | ErrMissingGithubApiKey
  | ErrMissingGitlabApiKey
deriving DecidableEq, Repr

/-- A Go runtime panic relevant to the modelled code: calling a
value-receiver method through a nil pointer. -/
inductive GoPanic where
  | nilValueMethodCall
deriving DecidableEq, Repr

/-- `General` section of the configuration. -/
structure General where
  Root : String
  Blacklist : List String
deriving DecidableEq, Repr

/-- `General.Valid`: requires a non-empty root path. -/
def General.Valid (g : General) : Option ConfigError :=
  if g.Root = "" then some .ErrMissingRoot else none

/-- `Gitlab` section (the fuller variant, with skip flags). -/
structure Gitlab where
  Secret : String
  Host : String
  SkipStarred : Bool
  SkipOwned : Bool
  SkipOrganisations : Bool
deriving DecidableEq, Repr

/-- `Gitlab.Valid`: requires a non-empty API secret. -/
def Gitlab.Valid (g : Gitlab) : Option ConfigError :=
  if g.Secret = "" then some .ErrMissingGitlabApiKey else none

/-- `Github` section of the configuration. -/
structure Github where
  APIKey : String
  SkipOwned : Bool
  SkipStarred : Bool
  SkipOrganisations : Bool
  SkipCollaborator : Bool
deriving DecidableEq, Repr

/-- `Github.Valid`: requires a non-empty API key. -/
def Github.Valid (g : Github) : Option ConfigError :=
  if g.APIKey = "" then some .ErrMissingGithubApiKey else none

/-- `Config` from config.go: a `General` value plus optional (pointer)
`Gitlab` and `Github` sections; a nil pointer is `none`. -/
structure Config where
  general : General
  gitlab : Option Gitlab
  github : Option Github
deriving DecidableEq, Repr

/-- `manyErrors` from config.go: the composite validation error. -/
structure manyErrors where
  Errors : List ConfigError
deriving DecidableEq, Repr

/-- A value wrapped in the `Validatable` interface, as `Config.Valid`'s
`check` closure receives it: either the `General` value, or a typed
`*Gitlab` / `*Github` pointer (whose pointee is `none` when the pointer is
nil). -/
inductive Validatable where
  | generalVal (g : General)
  | gitlabPtr (p : Option Gitlab)
  | githubPtr (p : Option Github)

/-- Whether the interface value compares equal to nil. In Go an interface
holding a typed value is non-nil even when that value is a nil pointer, so
every `Validatable` built by `Config.Valid` is non-nil. -/
def Validatable.isNil : Validatable → Bool
  | _ => false

/-- Dynamic dispatch of `.Valid()` on the interface value. Calling the
value-receiver method `Valid` through a nil `*Gitlab`/`*Github` pointer is
a Go runtime panic. -/
def Validatable.Valid : Validatable → Except GoPanic (Option ConfigError)
  | .generalVal g => .ok g.Valid
  | .gitlabPtr none => .error .nilValueMethodCall
  | .gitlabPtr (some g) => .ok g.Valid
  | .githubPtr none => .error .nilValueMethodCall
  | .githubPtr (some g) => .ok g.Valid

/-- The `check` closure inside `Config.Valid`: skip nil interface values,
otherwise validate and append any validation error to the accumulator. -/
def checkSection (v : Validatable) (m : List ConfigError) :
    Except GoPanic (List ConfigError) :=
  if v.isNil then .ok m
  else
    match v.Valid with
    | .error p => .error p
    | .ok none => .ok m
    | .ok (some e) => .ok (m ++ [e])

/-- `Config.Valid` from config.go: checks the general, gitlab and github
sections in order, collecting errors; returns the composite `manyErrors`
when any were collected, nil otherwise. A `.error` result models a panic
during validation. -/
def Config.Valid (c : Config) : Except GoPanic (Option manyErrors) := do
  let m ← checkSection (.generalVal c.general) []
  let m ← checkSection (.gitlabPtr c.gitlab) m
  let m ← checkSection (.githubPtr c.github) m
  if m.length ≠ 0 then return some ⟨m⟩ else return none

/-! ## Paginator model (`getPaginated` in github.go)

The paginator goroutine is a sequential loop; its only interactions with
the environment per iteration are (1) the page fetch, (2) the
`select \x7b case <-ctx.Done(); case repos <- got \x7d`, and (3) the
`ctx.Err() != nil` check. We fix those observations in a `Sched` record:
iteration `i` of the loop always runs with `page = i` (the loop increments
`page` exactly once per continuing iteration, starting from 0), so the
schedule is indexed by the page number. -/

/-- The context/scheduler observations of one paginator run.
`ctxDoneAtSelect i` is true when the `select` of iteration `i` takes the
`<-ctx.Done()` branch (dropping the fetched batch instead of sending it);
`ctxErrAtCheck i` is the value of `ctx.Err() != nil` at the loop-exit
check of iteration `i`. -/
structure Sched where
  ctxDoneAtSelect : Nat → Bool
  ctxErrAtCheck : Nat → Bool

/-- A real `context.Context` that is done at the `select` is still done at
the `ctx.Err()` check a few instructions later. -/
def Sched.Consistent (s : Sched) : Prop :=
  ∀ i, s.ctxDoneAtSelect i = true → s.ctxErrAtCheck i = true

/-- A run in which the context is never cancelled. -/
def Sched.NoCancel (s : Sched) : Prop :=
  ∀ i, s.ctxDoneAtSelect i = false ∧ s.ctxErrAtCheck i = false

/-- The observable outcome of one terminated paginator run:
`calls` — the page indices passed to `getPage`, in call order;
`emitted` — the batches sent on the `repos` channel, in send order
(termination runs the deferred `close(repos)`, so a `RunResult` is a run
whose output channel has closed);
`warned` — the page indices reported to `logger.Warn` after a failed fetch;
`numPages`/`numRepos` — the values logged by the final
"Fetched all pages" summary. -/
structure RunResult where
  calls : List Nat
  emitted : List (List Repo)
  warned : List Nat
  numPages : Nat
  numRepos : Nat
deriving DecidableEq, Repr

/-- The body of the `for` loop of `getPaginated`, with explicit state:
remaining `fuel` (the model returns `none` when the loop has not yet
terminated within `fuel` iterations), current `page`, the `numRepos`
counter, and the event accumulators. Transcribed branch for branch from
the source:
* a fetch error logs a warning and breaks the loop;
* the `select` either drops the batch (`<-ctx.Done()` branch — the `break`
  there only leaves the `select`) or sends it;
* `numRepos += len(got)` runs in both cases;
* the loop exits when `ctx.Err() != nil` or `page >= response.LastPage`,
  else `page++` and repeat. -/
def pagLoop {ε ρ : Type} (getPage : Nat → Except ε (List Repo × response ρ))
    (sched : Sched) :
    Nat → Nat → Nat → List Nat → List (List Repo) → List Nat →
    Option RunResult
  | 0, _, _, _, _, _ => none
  | fuel + 1, page, numRepos, calls, emitted, warned =>
    match getPage page with
    | .error _ =>
        some ⟨calls ++ [page], emitted, warned ++ [page], page, numRepos⟩
    | .ok (got, resp) =>
        let emitted' :=
          if sched.ctxDoneAtSelect page then emitted else emitted ++ [got]
        let numRepos' := numRepos + got.length
        if sched.ctxErrAtCheck page || decide ((page : Int) ≥ resp.LastPage)
        then some ⟨calls ++ [page], emitted', warned, page, numRepos'⟩
        else pagLoop getPage sched fuel (page + 1) numRepos'
          (calls ++ [page]) emitted' warned

/-- `getPaginated`: runs the paginator loop from page 0 with empty
accumulators. The function's Go return value is the `repos` channel; here
the result is the whole observable run (`none` if the goroutine is still
running after `fuel` iterations). A fetch error never appears in the
result type: it is only logged (`warned`), not raised to the caller. -/
def getPaginated {ε ρ : Type} (getPage : Nat → Except ε (List Repo × response ρ))
    (sched : Sched) (fuel : Nat) : Option RunResult :=
  pagLoop getPage sched fuel 0 0 [] [] []

/-! ## Fan-in model (`merge` in github.go)

`merge` starts one goroutine per input channel; each ranges over its
channel's batches and sends the records one at a time on the shared `out`
channel, and a join goroutine closes `out` once all have finished. Within
one source the record order (batches joined) is preserved; across sources
the interleaving is the scheduler's choice. We model the pending work of
source `i` as its remaining record list and a run as a list of source
choices: each step removes the head record of the chosen source and emits
it. `mergeRun` returns `none` for an invalid schedule (choosing an
exhausted or out-of-range source) or one that stops before every source is
drained — `out` is only closed (a `some` result) after all sources have
finished. -/

def mergeRun : List (List Repo) → List Nat → Option (List Repo)
  | srcs, [] => if srcs.all List.isEmpty then some [] else none
  | srcs, i :: rest =>
    match srcs[i]? with
    | some (r :: rs) => (mergeRun (srcs.set i rs) rest).map (r :: ·)
    | _ => none

/-! ## GitHub adapter (github.go) -/

/-- `githubProviderName` constant. -/
def githubProviderName : String := "github.com"

/-- `Github.affiliations`: the comma-joined affiliation list built from the
flags that are not skipped; the empty string when all three are skipped. -/
def Github.affiliations (g : Github) : String :=
  let affiliations : List String :=
    (if !g.SkipOwned then ["owner"] else []) ++
    (if !g.SkipOrganisations then ["organization_member"] else []) ++
    (if !g.SkipCollaborator then ["collaborator"] else [])
  if affiliations.length = 0 then ""
  else String.intercalate "," affiliations

/-- One logical source wired up by `FetchGithubRepos`: the owned/org
source (with its affiliation request parameter) or the starred source.
Each source is one `getPaginated` goroutine feeding `merge`. -/
inductive GithubSource where
  | ownedOrgs (affiliation : String)
  | starred
deriving DecidableEq, Repr

/-- The sources `FetchGithubRepos` creates, in creation order: the
owned/org paginator only when the affiliation string is non-empty, then
the starred paginator unless `SkipStarred`. -/
def FetchGithubReposSources (cfg : Github) : List GithubSource :=
  (if cfg.affiliations ≠ "" then [GithubSource.ownedOrgs cfg.affiliations]
   else []) ++
  (if !cfg.SkipStarred then [GithubSource.starred] else [])

/-! ## GitLab adapter (the gitlab file) -/

/-- `gitlabProviderName` constant: the default public host. -/
def gitlabProviderName : String := "gitlab.com"

/-- `Gitlab.Provider`: the configured host when non-empty, else the
default public host name. -/
def Gitlab.Provider (g : Gitlab) : String :=
  if g.Host ≠ "" then g.Host else gitlabProviderName

/-- The fields of a GitLab project that the adapter reads. -/
structure GitlabProject where
  NameWithNamespace : String
  SSHURLToRepo : String
deriving DecidableEq, Repr

/-- The `get` closure of `FetchGitlabRepos`, with the network call
`client.Projects.ListProjects` abstracted as `listProjects` (one call per
page index): on success it maps each project to a `Repo` carrying
`cfg.Provider()` and wraps the API response with `gitlabResponse`; an
error is returned unchanged. -/
def gitlabGetPage {ε : Type}
    (cfg : Gitlab) (listProjects : Nat → Except ε (List GitlabProject × GitlabAPIResponse))
    (page : Nat) : Except ε (List Repo × response Unit) :=
  match listProjects page with
  | .error e => .error e
  | .ok (got, resp) =>
    .ok (got.map (fun proj =>
      { Provider := cfg.Provider
        Name := proj.NameWithNamespace
        URL := proj.SSHURLToRepo }), gitlabResponse resp)

/-- `FetchGitlabRepos`: one paginated source built from the `get` closure
(the trailing `merge` of a single channel forwards its batches' records
and is covered by the fan-in model). -/
def FetchGitlabRepos {ε : Type}
    (cfg : Gitlab) (listProjects : Nat → Except ε (List GitlabProject × GitlabAPIResponse))
    (sched : Sched) (fuel : Nat) : Option RunResult :=
  getPaginated (gitlabGetPage cfg listProjects) sched fuel

/-! ## Spec-side comparison definition for C6 -/

/-- Modelled from the spec: "the affiliation string being the comma-joined
set of the non-skipped affiliations among owner, organization_member,
collaborator" — the comparison definition for the refinement part of C6. -/
def specAffiliationString (cfg : Github) : String :=
  String.intercalate ","
    ((([("owner", cfg.SkipOwned), ("organization_member", cfg.SkipOrganisations),
        ("collaborator", cfg.SkipCollaborator)].filter (fun p => !p.2)).map
      Prod.fst))

/-- Whether a source is the owned/org one. -/
def GithubSource.isOwnedOrgs : GithubSource → Bool
  | .ownedOrgs _ => true
  | .starred => false

/-! ## Theorems -/

/-- C1 (code_bug evidence): validating a configuration whose optional
gitlab and github sections are absent panics instead of succeeding. The
`check` closure receives the nil `*Gitlab` pointer wrapped in a non-nil
`Validatable` interface value, so the `v != nil` guard passes and
`v.Valid()` is a value-receiver call through a nil pointer — a runtime
panic, not the nil error the claim (and the guard's evident intent)
promises. -/
theorem config_valid_nil_section_panics :
    Config.Valid ⟨⟨"/backup", []⟩, none, none⟩ =
      Except.error GoPanic.nilValueMethodCall := by
  rfl

/-- C10: `GetRate` on a response whose `getRate` accessor is nil returns
nil instead of calling the nil function (the guard makes the method total),
and every response built by `gitlabResponse` has a nil accessor, hence a
nil `GetRate`. -/
theorem getRate_nil_accessor_safe (ρ : Type) (r : response ρ)
    (g : GitlabAPIResponse) (h : r.getRate = none) :
    r.GetRate = none ∧ (@gitlabResponse ρ g).getRate = none ∧
      (@gitlabResponse ρ g).GetRate = none := by
  refine ⟨?_, rfl, rfl⟩
  simp [response.GetRate, h]

/-- Witness for C10 at a concrete rate-free response. -/
theorem getRate_nil_accessor_safe_witness :
    ({ NextPage := 0, LastPage := 0, getRate := none } : response Unit).GetRate
      = none :=
  (getRate_nil_accessor_safe Unit
    { NextPage := 0, LastPage := 0, getRate := none } ⟨1, 3⟩ rfl).1

/-- C6: `FetchGithubRepos` creates the owned/org source exactly when at
least one of the three affiliation skip flags is unset, with the
affiliation string being the comma-joined non-skipped affiliations; it
creates the starred source exactly when `SkipStarred` is unset; and with
all three affiliation flags skipped it creates zero owned/org paginators
while the starred source is still governed solely by `SkipStarred`. -/
theorem fetchGithubRepos_source_creation (cfg : Github) :
    ((∃ a, GithubSource.ownedOrgs a ∈ FetchGithubReposSources cfg) ↔
      (cfg.SkipOwned = false ∨ cfg.SkipOrganisations = false ∨
        cfg.SkipCollaborator = false)) ∧
    (∀ a, GithubSource.ownedOrgs a ∈ FetchGithubReposSources cfg →
      a = specAffiliationString cfg) ∧
    (GithubSource.starred ∈ FetchGithubReposSources cfg ↔
      cfg.SkipStarred = false) ∧
    (cfg.SkipOwned = true → cfg.SkipOrganisations = true →
      cfg.SkipCollaborator = true →
      (FetchGithubReposSources cfg).filter GithubSource.isOwnedOrgs = [] ∧
      (cfg.SkipStarred = false →
        FetchGithubReposSources cfg = [GithubSource.starred])) := by
  obtain ⟨key, so, ss, sorg, sc⟩ := cfg
  cases so <;> cases ss <;> cases sorg <;> cases sc <;>
    simp [FetchGithubReposSources, Github.affiliations,
      specAffiliationString, GithubSource.isOwnedOrgs, String.intercalate] <;>
    decide

/-- Witness for C6: all three affiliation flags skipped, starred kept. -/
theorem fetchGithubRepos_source_creation_witness :
    (FetchGithubReposSources ⟨"k", true, false, true, true⟩).filter
        GithubSource.isOwnedOrgs = [] ∧
      FetchGithubReposSources ⟨"k", true, false, true, true⟩ =
        [GithubSource.starred] :=
  And.intro
    ((fetchGithubRepos_source_creation ⟨"k", true, false, true, true⟩).2.2.2
      rfl rfl rfl).1
    (((fetchGithubRepos_source_creation ⟨"k", true, false, true, true⟩).2.2.2
      rfl rfl rfl).2 rfl)

/-- Helper: a segment of `len` successful, uncancelled, non-final pages
starting at page `p` advances the loop deterministically: each page is
called once, its batch emitted, its records counted. -/
theorem pagLoop_ok_segment {ε ρ : Type}
    (getPage : Nat → Except ε (List Repo × response ρ)) (sched : Sched)
    (P : Nat → List Repo) (R : Nat → response ρ) :
    ∀ (len p fuel numRepos : Nat) (calls : List Nat)
      (emitted : List (List Repo)) (warned : List Nat),
    (∀ i, p ≤ i → i < p + len →
      getPage i = .ok (P i, R i) ∧ sched.ctxDoneAtSelect i = false ∧
      sched.ctxErrAtCheck i = false ∧ (i : Int) < (R i).LastPage) →
    pagLoop getPage sched (fuel + len) p numRepos calls emitted warned =
      pagLoop getPage sched fuel (p + len)
        (numRepos + ((List.range' p len).map (fun i => (P i).length)).sum)
        (calls ++ List.range' p len)
        (emitted ++ (List.range' p len).map P) warned := by
  intro len
  induction len with
  | zero =>
    intro p fuel numRepos calls emitted warned _
    simp
  | succ m ih =>
    intro p fuel numRepos calls emitted warned h
    obtain ⟨hok, hdone, herr, hlast⟩ := h p (le_refl p) (by omega)
    have hge : ¬ ((p : Int) ≥ (R p).LastPage) := not_le.mpr hlast
    have hfuel : fuel + (m + 1) = (fuel + m) + 1 := by omega
    have hstep :
        pagLoop getPage sched (fuel + (m + 1)) p numRepos calls emitted
            warned =
          pagLoop getPage sched (fuel + m) (p + 1) (numRepos + (P p).length)
            (calls ++ [p]) (emitted ++ [P p]) warned := by
      rw [hfuel]
      simp [pagLoop, hok, hdone, herr, hge]
    rw [hstep,
      ih (p + 1) fuel (numRepos + (P p).length) (calls ++ [p])
        (emitted ++ [P p]) warned
        (fun i h1 h2 => h i (by omega) (by omega)),
      List.range'_succ p m 1]
    simp only [List.append_assoc, List.map_cons, List.sum_cons,
      List.singleton_append, List.cons_append, List.nil_append]
    rw [show p + 1 + m = p + (m + 1) from by omega, Nat.add_assoc]

/-- C2: a paginator over a fetcher that succeeds on pages `0..n`, each
response declaring last page `n`, run without cancellation and with enough
fuel, terminates (closing its stream) having called exactly pages `0..n`
in order, emitted exactly those pages' batches in page order, warned about
nothing, and counted every record. -/
theorem getPaginated_success_run {ε ρ : Type}
    (getPage : Nat → Except ε (List Repo × response ρ)) (sched : Sched)
    (P : Nat → List Repo) (R : Nat → response ρ) (n fuel : Nat)
    (hfuel : n + 1 ≤ fuel)
    (hok : ∀ i, i ≤ n → getPage i = .ok (P i, R i))
    (hlast : ∀ i, i ≤ n → (R i).LastPage = (n : Int))
    (hnc : sched.NoCancel) :
    getPaginated getPage sched fuel =
      some ⟨List.range (n + 1), (List.range (n + 1)).map P, [], n,
        ((List.range (n + 1)).map (fun i => (P i).length)).sum⟩ := by
  obtain ⟨k, rfl⟩ := Nat.exists_eq_add_of_le hfuel
  have hseg := pagLoop_ok_segment getPage sched P R n 0 (k + 1) 0 [] [] []
    (fun i h1 h2 => ⟨hok i (by omega), (hnc i).1, (hnc i).2, by
      rw [hlast i (by omega)]; exact_mod_cast (by omega : i < n)⟩)
  have hfe : n + 1 + k = (k + 1) + n := by omega
  unfold getPaginated
  rw [hfe, hseg]
  have hlastn : ((n : Int) ≥ (R n).LastPage) := le_of_eq (hlast n (le_refl n))
  simp only [Nat.zero_add, List.nil_append, ← List.range_eq_range']
  simp [pagLoop, hok n (le_refl n), (hnc n).1, (hnc n).2, hlastn,
    List.range_succ]

/-- Witness for C2: two pages of one record each, last page 1. -/
theorem getPaginated_success_run_witness :
    getPaginated
      (fun i => Except.ok ([⟨"github.com", "o/r", "u"⟩],
        ⟨(i : Int) + 1, 1, none⟩) : Nat → Except Unit (List Repo × response Unit))
      ⟨fun _ => false, fun _ => false⟩ 5 =
      some ⟨[0, 1], [[⟨"github.com", "o/r", "u"⟩], [⟨"github.com", "o/r", "u"⟩]],
        [], 1, 2⟩ := by
  have h := @getPaginated_success_run Unit Unit
    (fun i => Except.ok ([⟨"github.com", "o/r", "u"⟩], ⟨(i : Int) + 1, 1, none⟩))
    ⟨fun _ => false, fun _ => false⟩
    (fun _ => [⟨"github.com", "o/r", "u"⟩]) (fun i => ⟨(i : Int) + 1, 1, none⟩)
    1 5 (by omega) (fun i _ => rfl) (fun i _ => rfl) (fun i => ⟨rfl, rfl⟩)
  exact h.trans (by decide)

/-- C3: when pages 0 and 1 succeed (each declaring more pages to come) and
the fetch of page 2 errors, the paginator emits exactly the batches of
pages 0 and 1, calls page 2 exactly once and never calls page 3, logs one
warning for page 2, and terminates closing its stream — the error is
reported to the logger, never surfaced in the result. -/
theorem getPaginated_page2_error {ε ρ : Type}
    (getPage : Nat → Except ε (List Repo × response ρ)) (sched : Sched)
    (P0 P1 : List Repo) (R0 R1 : response ρ) (e : ε) (fuel : Nat)
    (hfuel : 3 ≤ fuel)
    (h0 : getPage 0 = .ok (P0, R0)) (h1 : getPage 1 = .ok (P1, R1))
    (h2 : getPage 2 = .error e)
    (hl0 : (0 : Int) < R0.LastPage) (hl1 : (1 : Int) < R1.LastPage)
    (hnc : sched.NoCancel) :
    getPaginated getPage sched fuel =
      some ⟨[0, 1, 2], [P0, P1], [2], 2, P0.length + P1.length⟩ := by
  obtain ⟨k, rfl⟩ := Nat.exists_eq_add_of_le hfuel
  have hge0 : ¬ ((0 : Int) ≥ R0.LastPage) := not_le.mpr hl0
  have hge1 : ¬ ((1 : Int) ≥ R1.LastPage) := not_le.mpr hl1
  unfold getPaginated
  rw [show 3 + k = k + 1 + 1 + 1 from by omega]
  simp [pagLoop, h0, h1, h2, (hnc 0).1, (hnc 0).2, (hnc 1).1, (hnc 1).2,
    hge0, hge1]

/-- Witness for C3: one record on each of pages 0 and 1, error on page 2. -/
theorem getPaginated_page2_error_witness :
    getPaginated
      (fun i => if i < 2 then
          Except.ok ([⟨"github.com", "o/r", "u"⟩], ⟨(i : Int) + 1, 9, none⟩)
        else Except.error () : Nat → Except Unit (List Repo × response Unit))
      ⟨fun _ => false, fun _ => false⟩ 3 =
      some ⟨[0, 1, 2], [[⟨"github.com", "o/r", "u"⟩], [⟨"github.com", "o/r", "u"⟩]],
        [2], 2, 2⟩ := by
  have h := @getPaginated_page2_error Unit Unit
    (fun i => if i < 2 then
        Except.ok ([⟨"github.com", "o/r", "u"⟩], ⟨(i : Int) + 1, 9, none⟩)
      else Except.error ())
    ⟨fun _ => false, fun _ => false⟩
    [⟨"github.com", "o/r", "u"⟩] [⟨"github.com", "o/r", "u"⟩]
    ⟨1, 9, none⟩ ⟨2, 9, none⟩ () 3 (by omega) (by norm_num) (by norm_num)
    (by norm_num) (by decide) (by decide) (fun i => ⟨rfl, rfl⟩)
  exact h.trans (by decide)

/-- C5: when the paginator has successfully advanced through pages
`0..k-1` and, during iteration `k` (the in-flight page), the `select`
observes the cancelled context, the run drops the in-flight batch: it
terminates (closing the stream) having emitted exactly the batches of
pages `0..k-1`, never emitting the in-flight page `k` or any later page
(page `k+1` is never even fetched). The `break` inside the `select` only
leaves the `select`, but the subsequent `ctx.Err()` check — true whenever
the context was done at the `select` (`Sched.Consistent`) — exits the
loop. -/
theorem getPaginated_cancel_drops_inflight {ε ρ : Type}
    (getPage : Nat → Except ε (List Repo × response ρ)) (sched : Sched)
    (P : Nat → List Repo) (R : Nat → response ρ) (k fuel : Nat)
    (hfuel : k + 1 ≤ fuel)
    (hok : ∀ i, i ≤ k → getPage i = .ok (P i, R i))
    (hpre : ∀ i, i < k → sched.ctxDoneAtSelect i = false ∧
      sched.ctxErrAtCheck i = false ∧ (i : Int) < (R i).LastPage)
    (hcancel : sched.ctxDoneAtSelect k = true)
    (hcons : sched.Consistent) :
    getPaginated getPage sched fuel =
      some ⟨List.range (k + 1), (List.range k).map P, [], k,
        ((List.range (k + 1)).map (fun i => (P i).length)).sum⟩ := by
  obtain ⟨f, rfl⟩ := Nat.exists_eq_add_of_le hfuel
  have hseg := pagLoop_ok_segment getPage sched P R k 0 (f + 1) 0 [] [] []
    (fun i h1 h2 => ⟨hok i (by omega), (hpre i (by omega)).1,
      (hpre i (by omega)).2.1, (hpre i (by omega)).2.2⟩)
  unfold getPaginated
  rw [show k + 1 + f = (f + 1) + k from by omega, hseg]
  simp only [Nat.zero_add, List.nil_append, ← List.range_eq_range']
  simp [pagLoop, hok k (le_refl k), hcancel, hcons k hcancel,
    List.range_succ]

/-- Witness for C5: page 0 emitted, cancellation observed at page 1's
select, so the in-flight page 1 is dropped (though its records are still
counted by the loop's counter). -/
theorem getPaginated_cancel_drops_inflight_witness :
    getPaginated
      (fun i => Except.ok ([⟨"github.com", "o/r", "u"⟩],
        ⟨(i : Int) + 1, 9, none⟩) : Nat → Except Unit (List Repo × response Unit))
      ⟨fun i => decide (1 ≤ i), fun i => decide (1 ≤ i)⟩ 2 =
      some ⟨[0, 1], [[⟨"github.com", "o/r", "u"⟩]], [], 1, 2⟩ := by
  have h := @getPaginated_cancel_drops_inflight Unit Unit
    (fun i => Except.ok ([⟨"github.com", "o/r", "u"⟩], ⟨(i : Int) + 1, 9, none⟩))
    ⟨fun i => decide (1 ≤ i), fun i => decide (1 ≤ i)⟩
    (fun _ => [⟨"github.com", "o/r", "u"⟩]) (fun i => ⟨(i : Int) + 1, 9, none⟩)
    1 2 (by omega) (fun i _ => rfl)
    (fun i hi => by interval_cases i; exact ⟨rfl, rfl, by decide⟩)
    (by decide)
    (fun i hi => by revert hi; simp)
  exact h.trans (by decide)

/-- Helper invariant for the final summary: on any terminated run the
logged `numPages` is one less than the number of page calls made, and —
when the run was never cancelled — the logged `numRepos` equals the total
number of records in the emitted batches. -/
theorem pagLoop_summary_invariant {ε ρ : Type}
    (getPage : Nat → Except ε (List Repo × response ρ)) (sched : Sched) :
    ∀ (fuel page numRepos : Nat) (calls : List Nat)
      (emitted : List (List Repo)) (warned : List Nat) (r : RunResult),
    pagLoop getPage sched fuel page numRepos calls emitted warned = some r →
    r.numPages + 1 + calls.length = r.calls.length + page ∧
    (sched.NoCancel → r.numRepos + (emitted.map List.length).sum =
      numRepos + (r.emitted.map List.length).sum) := by
  intro fuel
  induction fuel with
  | zero =>
    intro page numRepos calls emitted warned r h
    simp [pagLoop] at h
  | succ m ih =>
    intro page numRepos calls emitted warned r h
    cases hg : getPage page with
    | error e =>
      simp [pagLoop, hg] at h
      subst h
      simp
      omega
    | ok pr =>
      obtain ⟨got, resp⟩ := pr
      simp only [pagLoop, hg] at h
      split at h
      · simp only [Option.some.injEq] at h
        subst h
        constructor
        · simp
          omega
        · intro hnc
          simp [(hnc page).1]
          omega
      · have hih := ih (page + 1) (numRepos + got.length) (calls ++ [page])
          (if sched.ctxDoneAtSelect page then emitted else emitted ++ [got])
          warned r h
        constructor
        · have := hih.1
          simp [List.length_append] at this
          omega
        · intro hnc
          have := hih.2 hnc
          simp [(hnc page).1] at this
          omega

/-- C8 counterexample: the claim "the final summary reports total pages
equal to the number of pages actually fetched" is false. With a fetcher
whose single page 0 succeeds (last page 0), one page is fetched and
emitted (`calls = [0]`, no warnings), yet the summary logs
`num-pages = 0` — the loop logs the final page index, not the count. -/
theorem getPaginated_summary_pages_claim_false :
    ¬ (∀ (getPage : Nat → Except Unit (List Repo × response Unit))
        (sched : Sched) (fuel : Nat) (r : RunResult),
        getPaginated getPage sched fuel = some r → r.warned = [] →
        r.numPages = r.calls.length) := by
  intro hclaim
  have h := hclaim
    (fun _ => Except.ok ([⟨"github.com", "a/b", "u"⟩], ⟨0, 0, none⟩))
    ⟨fun _ => false, fun _ => false⟩ 1
    ⟨[0], [[⟨"github.com", "a/b", "u"⟩]], [], 0, 1⟩ (by decide) rfl
  simp at h

/-- C8 amended: on every terminated paginator run the final summary's
`num-pages` equals the number of page calls made minus one (it is the
zero-based index of the last page requested), and — in runs the context
never cancels — its `num-repos` equals the total number of records
emitted on the output stream. (Under cancellation the dropped in-flight
page is still counted, so the record total can exceed the emitted
count.) -/
theorem getPaginated_summary_amended {ε ρ : Type}
    (getPage : Nat → Except ε (List Repo × response ρ)) (sched : Sched)
    (fuel : Nat) (r : RunResult)
    (h : getPaginated getPage sched fuel = some r) :
    r.numPages + 1 = r.calls.length ∧
    (sched.NoCancel → r.numRepos = (r.emitted.map List.length).sum) := by
  have hinv := pagLoop_summary_invariant getPage sched fuel 0 0 [] [] [] r h
  constructor
  · have := hinv.1
    simpa using this
  · intro hnc
    have := hinv.2 hnc
    simpa using this

/-- Witness for the amended C8: two fetched pages, summary pages value 1,
record total 3 = emitted records. -/
theorem getPaginated_summary_amended_witness :
    (1 : Nat) + 1 = 2 ∧ (3 : Nat) = 3 := by
  have h := @getPaginated_summary_amended Unit Unit
    (fun i => Except.ok
      (if i = 0 then [⟨"github.com", "a/b", "u"⟩]
       else [⟨"github.com", "a/b", "u"⟩, ⟨"github.com", "c/d", "v"⟩],
       ⟨(i : Int) + 1, 1, none⟩))
    ⟨fun _ => false, fun _ => false⟩ 2
    ⟨[0, 1], [[⟨"github.com", "a/b", "u"⟩],
      [⟨"github.com", "a/b", "u"⟩, ⟨"github.com", "c/d", "v"⟩]], [], 1, 3⟩
    (by decide)
  exact ⟨h.1, (h.2 (fun i => ⟨rfl, rfl⟩)).trans (by decide)⟩

/-- The rate-free view of a page fetch result: the records and the
`NextPage`/`LastPage` cursors, with the rate diagnostic erased. -/
def eraseRate {ε ρ : Type} :
    Except ε (List Repo × response ρ) → Except ε (List Repo × Int × Int)
  | .error e => .error e
  | .ok (l, r) => .ok (l, r.NextPage, r.LastPage)

/-- Helper for C9: the loop is fully determined by the rate-free view of
the fetcher — two fetchers agreeing on records and cursors (their rate
payloads may differ, even in type) produce identical loop behaviour from
any state. -/
theorem pagLoop_rate_free {ε ρ ρ' : Type}
    (g1 : Nat → Except ε (List Repo × response ρ))
    (g2 : Nat → Except ε (List Repo × response ρ')) (sched : Sched)
    (h : ∀ i, eraseRate (g1 i) = eraseRate (g2 i)) :
    ∀ (fuel page numRepos : Nat) (calls : List Nat)
      (emitted : List (List Repo)) (warned : List Nat),
    pagLoop g1 sched fuel page numRepos calls emitted warned =
      pagLoop g2 sched fuel page numRepos calls emitted warned := by
  intro fuel
  induction fuel with
  | zero => intro page numRepos calls emitted warned; rfl
  | succ m ih =>
    intro page numRepos calls emitted warned
    have hp := h page
    cases h1 : g1 page with
    | error e =>
      rw [h1] at hp
      cases h2 : g2 page with
      | error e' => simp [pagLoop, h1, h2]
      | ok pr => rw [h2] at hp; simp [eraseRate] at hp
    | ok pr1 =>
      obtain ⟨l1, r1⟩ := pr1
      rw [h1] at hp
      cases h2 : g2 page with
      | error e' => rw [h2] at hp; simp [eraseRate] at hp
      | ok pr2 =>
        obtain ⟨l2, r2⟩ := pr2
        rw [h2] at hp
        simp [eraseRate] at hp
        obtain ⟨hl, hnp, hlp⟩ := hp
        subst hl
        simp only [pagLoop, h1, h2]
        rw [hlp]
        split
        · rfl
        · exact ih (page + 1) (numRepos + l1.length) (calls ++ [page]) _ warned

/-- C9: two paginator runs over fetchers identical except for the rate
diagnostic (the `getRate` accessor of each returned response — even its
payload type may differ) behave identically: same page calls, same
emitted batches, same warnings, same final summary. The rate value is
read only for the debug log and never affects control flow or the output
stream. -/
theorem getPaginated_rate_noninterference {ε ρ ρ' : Type}
    (g1 : Nat → Except ε (List Repo × response ρ))
    (g2 : Nat → Except ε (List Repo × response ρ')) (sched : Sched)
    (fuel : Nat)
    (h : ∀ i, eraseRate (g1 i) = eraseRate (g2 i)) :
    getPaginated g1 sched fuel = getPaginated g2 sched fuel :=
  pagLoop_rate_free g1 g2 sched h fuel 0 0 [] [] []

/-- Witness for C9: the same single page, once with a rate accessor
returning 42 and once with a nil accessor, gives equal runs. -/
theorem getPaginated_rate_noninterference_witness :
    getPaginated
      (fun i => Except.ok ([⟨"github.com", "o/r", "u"⟩],
        ⟨(i : Int) + 1, 0, some (fun _ => 42)⟩)
        : Nat → Except Unit (List Repo × response Nat))
      ⟨fun _ => false, fun _ => false⟩ 3 =
    getPaginated
      (fun i => Except.ok ([⟨"github.com", "o/r", "u"⟩],
        ⟨(i : Int) + 1, 0, none⟩)
        : Nat → Except Unit (List Repo × response Unit))
      ⟨fun _ => false, fun _ => false⟩ 3 :=
  getPaginated_rate_noninterference
    (fun i => Except.ok ([⟨"github.com", "o/r", "u"⟩],
      ⟨(i : Int) + 1, 0, some (fun _ => 42)⟩))
    (fun i => Except.ok ([⟨"github.com", "o/r", "u"⟩],
      ⟨(i : Int) + 1, 0, none⟩))
    ⟨fun _ => false, fun _ => false⟩ 3 (fun _ => rfl)

/-- Helper for C4: removing the head record of source `i` removes exactly
that one record from the concatenation of all sources. -/
theorem join_set_cons_perm :
    ∀ (srcs : List (List Repo)) (i : Nat) (r : Repo) (rs : List Repo),
    srcs[i]? = some (r :: rs) →
    List.Perm srcs.flatten (r :: (srcs.set i rs).flatten) := by
  intro srcs
  induction srcs with
  | nil => intro i r rs h; simp at h
  | cons s t ih =>
    intro i r rs h
    cases i with
    | zero =>
      simp at h
      subst h
      simp
    | succ j =>
      simp at h
      have hp := ih j r rs h
      simp only [List.flatten_cons, List.set_cons_succ]
      exact (hp.append_left s).trans List.perm_middle

/-- C4: every completed interleaving of the fan-in merge emits exactly the
records of all input batches — a permutation of their concatenation, so
no record is duplicated or lost under any relative timing — and `out` is
closed (`some`) only once every source is drained; with zero input
streams the merge closes immediately with no records. -/
theorem merge_each_record_once :
    (∀ (batchess : List (List (List Repo))) (sched : List Nat)
      (out : List Repo),
      mergeRun (batchess.map List.flatten) sched = some out →
      List.Perm out (batchess.map List.flatten).flatten) ∧
    mergeRun [] [] = some [] := by
  have main : ∀ (sched : List Nat) (srcs : List (List Repo))
      (out : List Repo), mergeRun srcs sched = some out →
      List.Perm out srcs.flatten := by
    intro sched
    induction sched with
    | nil =>
      intro srcs out h
      simp [mergeRun] at h
      obtain ⟨hall, rfl⟩ := h
      have hj : srcs.flatten = [] := by
        rw [List.flatten_eq_nil_iff]
        intro l hl
        have := hall l hl
        simpa [List.isEmpty_iff] using this
      rw [hj]
    | cons i rest ih =>
      intro srcs out h
      simp only [mergeRun] at h
      cases hg : srcs[i]? with
      | none => rw [hg] at h; simp at h
      | some s =>
        cases s with
        | nil => rw [hg] at h; simp at h
        | cons r rs =>
          rw [hg] at h
          simp only [Option.map_eq_some'] at h
          obtain ⟨out', hrun, rfl⟩ := h
          exact ((ih (srcs.set i rs) out' hrun).cons r).trans
            (join_set_cons_perm srcs i r rs hg).symm
  exact ⟨fun batchess sched out h =>
    main sched (batchess.map List.flatten) out h, rfl⟩

/-- Witness for C4: three sources producing 5, 0 and 3 records under one
concrete interleaving yield exactly those 8 records. -/
theorem merge_each_record_once_witness :
    List.Perm
      ([⟨"github.com", "b1", "u"⟩, ⟨"github.com", "a1", "u"⟩,
        ⟨"github.com", "a2", "u"⟩, ⟨"github.com", "b2", "u"⟩,
        ⟨"github.com", "a3", "u"⟩, ⟨"github.com", "b3", "u"⟩,
        ⟨"github.com", "a4", "u"⟩, ⟨"github.com", "a5", "u"⟩] : List Repo)
      (([[[⟨"github.com", "a1", "u"⟩, ⟨"github.com", "a2", "u"⟩],
          [⟨"github.com", "a3", "u"⟩], [],
          [⟨"github.com", "a4", "u"⟩, ⟨"github.com", "a5", "u"⟩]],
         [],
         [[⟨"github.com", "b1", "u"⟩, ⟨"github.com", "b2", "u"⟩,
           ⟨"github.com", "b3", "u"⟩]]] : List (List (List Repo))).map
        List.flatten).flatten :=
  merge_each_record_once.1
    [[[⟨"github.com", "a1", "u"⟩, ⟨"github.com", "a2", "u"⟩],
      [⟨"github.com", "a3", "u"⟩], [],
      [⟨"github.com", "a4", "u"⟩, ⟨"github.com", "a5", "u"⟩]],
     [],
     [[⟨"github.com", "b1", "u"⟩, ⟨"github.com", "b2", "u"⟩,
       ⟨"github.com", "b3", "u"⟩]]]
    [2, 0, 0, 2, 0, 2, 0, 0]
    [⟨"github.com", "b1", "u"⟩, ⟨"github.com", "a1", "u"⟩,
     ⟨"github.com", "a2", "u"⟩, ⟨"github.com", "b2", "u"⟩,
     ⟨"github.com", "a3", "u"⟩, ⟨"github.com", "b3", "u"⟩,
     ⟨"github.com", "a4", "u"⟩, ⟨"github.com", "a5", "u"⟩]
    (by decide)

/-- Helper for C7: every batch emitted by a terminated paginator run was
returned by a successful page fetch (or was already in the emitted
accumulator). -/
theorem pagLoop_emitted_sound {ε ρ : Type}
    (getPage : Nat → Except ε (List Repo × response ρ)) (sched : Sched)
    (Q : List Repo → Prop)
    (hQ : ∀ p l resp, getPage p = Except.ok (l, resp) → Q l) :
    ∀ (fuel page numRepos : Nat) (calls : List Nat)
      (emitted : List (List Repo)) (warned : List Nat) (r : RunResult),
    pagLoop getPage sched fuel page numRepos calls emitted warned = some r →
    ∀ b ∈ r.emitted, b ∈ emitted ∨ Q b := by
  intro fuel
  induction fuel with
  | zero =>
    intro page numRepos calls emitted warned r h
    simp [pagLoop] at h
  | succ m ih =>
    intro page numRepos calls emitted warned r h b hb
    cases hg : getPage page with
    | error e =>
      simp [pagLoop, hg] at h
      subst h
      exact Or.inl hb
    | ok pr =>
      obtain ⟨got, resp⟩ := pr
      simp only [pagLoop, hg] at h
      have hQgot : Q got := hQ page got resp hg
      split at h
      · simp only [Option.some.injEq] at h
        subst h
        simp at hb
        by_cases hd : sched.ctxDoneAtSelect page
        · simp [hd] at hb
          exact Or.inl hb
        · simp [hd] at hb
          rcases hb with hb | rfl
          · exact Or.inl hb
          · exact Or.inr hQgot
      · have := ih (page + 1) (numRepos + got.length) (calls ++ [page])
          (if sched.ctxDoneAtSelect page then emitted else emitted ++ [got])
          warned r h b hb
        rcases this with hmem | hq
        · by_cases hd : sched.ctxDoneAtSelect page
          · simp [hd] at hmem
            exact Or.inl hmem
          · simp [hd] at hmem
            rcases hmem with hmem | rfl
            · exact Or.inl hmem
            · exact Or.inr hQgot
        · exact Or.inr hq

/-- C7: `Gitlab.Provider` is the configured host when non-empty and the
default public host "gitlab.com" otherwise, and on every terminated
`FetchGitlabRepos` run every repository of every emitted batch carries
exactly that value in its `Provider` field. -/
theorem fetchGitlabRepos_provider {ε : Type} (cfg : Gitlab)
    (listProjects : Nat → Except ε (List GitlabProject × GitlabAPIResponse))
    (sched : Sched) (fuel : Nat) (r : RunResult)
    (h : FetchGitlabRepos cfg listProjects sched fuel = some r) :
    cfg.Provider = (if cfg.Host ≠ "" then cfg.Host else "gitlab.com") ∧
    ∀ b ∈ r.emitted, ∀ repo ∈ b, repo.Provider = cfg.Provider := by
  refine ⟨rfl, ?_⟩
  intro b hb repo hrepo
  have hsound := pagLoop_emitted_sound (gitlabGetPage cfg listProjects) sched
    (fun l => ∀ x ∈ l, x.Provider = cfg.Provider)
    (fun p l resp hok => by
      unfold gitlabGetPage at hok
      cases hlp : listProjects p with
      | error e => rw [hlp] at hok; simp at hok
      | ok pr =>
        obtain ⟨got, rsp⟩ := pr
        rw [hlp] at hok
        simp only [Except.ok.injEq, Prod.mk.injEq] at hok
        obtain ⟨hl, _⟩ := hok
        subst hl
        intro x hx
        simp only [List.mem_map] at hx
        obtain ⟨proj, _, rfl⟩ := hx
        rfl)
    fuel 0 0 [] [] [] r h b hb
  rcases hsound with hmem | hq
  · simp at hmem
  · exact hq repo hrepo

/-- Witness for C7: a gitlab config with no host override produces a repo
whose provider is the default public host. -/
theorem fetchGitlabRepos_provider_witness :
    (⟨"gitlab.com", "g/p", "ssh:u"⟩ : Repo).Provider =
      (⟨"s", "", false, false, false⟩ : Gitlab).Provider :=
  (@fetchGitlabRepos_provider Unit ⟨"s", "", false, false, false⟩
    (fun _ => Except.ok ([⟨"g/p", "ssh:u"⟩], (⟨7, 0⟩ : GitlabAPIResponse)))
    ⟨fun _ => false, fun _ => false⟩ 1
    ⟨[0], [[⟨"gitlab.com", "g/p", "ssh:u"⟩]], [], 0, 1⟩ (by decide)).2
    [⟨"gitlab.com", "g/p", "ssh:u"⟩] (by decide)
    ⟨"gitlab.com", "g/p", "ssh:u"⟩ (by decide)

end RepoBackup
